import Mathlib

/-!
# KFCpp: the one-dimensional Kalman filter of `src/kalman_filter_1d.cpp`

A shallow embedding of the `Gaussian` class, of the two transition functions
`PredictState` and `UpdateMeasurement`, of the loop of `main`, and of the part
of the angle utility `src/math/angle/angle.hpp` that builds an `Angle`.

The source computes in `double`.  Two embeddings of the filter are given.

## The exact embedding

* A C++ `double` is idealised as an exact rational number: every finite double
  is a rational, and `+`, `*`, `/` are taken without rounding.  Rounding,
  overflow, infinities and NaN are not modelled.
* A division whose divisor is zero has no rational value (the machine yields an
  infinity or a NaN there); such a call is reported as `Fault.DivisionByZero`.
* A C++ call either returns a value or throws, so every embedded call returns
  an `Except Fault _`.  The source contains no `throw` statement.
* The constructor initialiser `stddev_{std::sqrt(sigma_sq)}` names a member
  the class does not declare and no accessor reads; it is left out.
* In `angle.hpp` the library constant `std::numbers::pi_v<T>` is a parameter
  `pi` of every definition, assumed positive in the theorems.

This embedding carries the statements that name the value the code computes
(the formulas, the absence of any validation, the numeric scenario, the value
stored for the half turn).  It decides nothing that depends on how a double
rounds, overflows or underflows.

## The embedding over an arbitrary arithmetic

* The same expressions, written over a type `D` of scalars with unspecified
  operations `add`, `mul`, `div` and an unspecified reading `lit` of the
  literals of the source (`Arithmetic D`).  Binary64 arithmetic, with its
  rounding, infinities and NaN, is one such arithmetic; exact rational
  arithmetic (`exactRat`) is another.
* No operation of the source throws, so these functions are total.
* The loop of `main` is a function of the list of `(mean, variance)` pairs read
  from the input; it returns, per iteration, the three states the loop prints.

A statement proved for every `Arithmetic D` holds by the shape of the code
alone, whatever the scalar operations do.
-/

namespace KFCpp


/-- Ways in which an embedded call can end without a value.
`InvalidDistribution` is the error kind a caller may expect for a non-positive
variance; `DivisionByZero` marks a quotient with a zero divisor. -/
inductive Fault where
  | InvalidDistribution
  | DivisionByZero
deriving DecidableEq, Repr

/-- The class `Gaussian`: the two private members `mean_` and `var_`. -/
structure Gaussian where
  mean_ : ℚ
  var_ : ℚ
deriving DecidableEq, Repr

/-- Getter `double Mean() const { return mean_; }`. -/
def Gaussian.Mean (g : Gaussian) : ℚ := g.mean_

/-- Getter `double Variance() const { return var_; }`. -/
def Gaussian.Variance (g : Gaussian) : ℚ := g.var_

/-- Constructor `Gaussian() : mean_{0.0}, var_{1.0}`. -/
def Gaussian.default : Except Fault Gaussian :=
  Except.ok { mean_ := 0, var_ := 1 }

/-- Constructor `Gaussian(double mu, double sigma_sq) : mean_{mu}, var_{sigma_sq}`.
The body is empty: no test on `sigma_sq`, no `throw`. -/
def Gaussian.new (mu sigma_sq : ℚ) : Except Fault Gaussian :=
  Except.ok { mean_ := mu, var_ := sigma_sq }

/-- Quotient `x / y` of two doubles in the rational idealisation. -/
def fdiv (x y : ℚ) : Except Fault ℚ :=
  if y = 0 then Except.error Fault.DivisionByZero else Except.ok (x / y)

/-- Function `PredictState(prior_believe, motion)`, lines 35-41. -/
def PredictState (prior_believe motion : Gaussian) : Except Fault Gaussian :=
  Gaussian.new
    (prior_believe.Mean + motion.Mean)
    (prior_believe.Variance + motion.Variance)

/-- Function `UpdateMeasurement(prior_believe, measurement)`, lines 43-53. -/
def UpdateMeasurement (prior_believe measurement : Gaussian) : Except Fault Gaussian := do
  let mean1 := prior_believe.Mean
  let mean2 := measurement.Mean
  let var1 := prior_believe.Variance
  let var2 := measurement.Variance
  let mu ← fdiv (var2 * mean1 + var1 * mean2) (var1 + var2)
  let inv1 ← fdiv 1 var1
  let inv2 ← fdiv 1 var2
  let sigma_sq ← fdiv 1 (inv1 + inv2)
  Gaussian.new mu sigma_sq

/-- The scalar operations of the source, left unspecified: `lit` reads a
literal such as `0.0`, `1.0` or `1000.0`, and `add`, `mul`, `div` are `+`, `*`
and `/` on the scalar type. -/
structure Arithmetic (D : Type) where
  lit : ℚ → D
  add : D → D → D
  mul : D → D → D
  div : D → D → D

/-- The class `Gaussian` over the scalars `D`: the members `mean_` and `var_`. -/
structure GaussianOf (D : Type) where
  mean_ : D
  var_ : D
deriving DecidableEq, Repr

/-- Getter `double Mean() const { return mean_; }`, over `D`. -/
def GaussianOf.Mean {D : Type} (g : GaussianOf D) : D := g.mean_

/-- Getter `double Variance() const { return var_; }`, over `D`. -/
def GaussianOf.Variance {D : Type} (g : GaussianOf D) : D := g.var_

/-- Constructor `Gaussian() : mean_{0.0}, var_{1.0}`, over `D`. -/
def GaussianOf.default {D : Type} (A : Arithmetic D) : GaussianOf D :=
  { mean_ := A.lit 0, var_ := A.lit 1 }

/-- Constructor `Gaussian(double mu, double sigma_sq) : mean_{mu}, var_{sigma_sq}`,
over `D`. -/
def GaussianOf.new {D : Type} (mu sigma_sq : D) : GaussianOf D :=
  { mean_ := mu, var_ := sigma_sq }

/-- Function `PredictState(prior_believe, motion)`, lines 35-41, over `D`. -/
def PredictStateOf {D : Type} (A : Arithmetic D)
    (prior_believe motion : GaussianOf D) : GaussianOf D :=
  GaussianOf.new
    (A.add prior_believe.Mean motion.Mean)
    (A.add prior_believe.Variance motion.Variance)

/-- Function `UpdateMeasurement(prior_believe, measurement)`, lines 43-53, over
`D`. -/
def UpdateMeasurementOf {D : Type} (A : Arithmetic D)
    (prior_believe measurement : GaussianOf D) : GaussianOf D :=
  let mean1 := prior_believe.Mean
  let mean2 := measurement.Mean
  let var1 := prior_believe.Variance
  let var2 := measurement.Variance
  GaussianOf.new
    (A.div (A.add (A.mul var2 mean1) (A.mul var1 mean2)) (A.add var1 var2))
    (A.div (A.lit 1) (A.add (A.div (A.lit 1) var1) (A.div (A.lit 1) var2)))

/-- One iteration of the loop of `main`: the state printed as "Initial state",
the one printed as "Measurement updated" and the one printed as "State
predicted". -/
structure Iteration (D : Type) where
  initial : GaussianOf D
  updated : GaussianOf D
  predicted : GaussianOf D
deriving DecidableEq, Repr

/-- Body of `while(std::cin >> measurement)` in `main`, lines 60-72: each pair
read builds `measurement = Gaussian(mean, var)`, then the state is updated with
it and predicted with `motion`; the predicted state enters the next iteration. -/
def mainLoop {D : Type} (A : Arithmetic D) (motion : GaussianOf D) :
    GaussianOf D → List (D × D) → List (Iteration D)
  | _, [] => []
  | state, (mean, var) :: rest =>
      let measurement := GaussianOf.new mean var
      let updated := UpdateMeasurementOf A state measurement
      let predicted := PredictStateOf A updated motion
      { initial := state, updated := updated, predicted := predicted } ::
        mainLoop A motion predicted rest

/-- Function `main`, lines 55-75: `Gaussian measurement, motion;` are default
constructed (the first is overwritten by every read), `Gaussian state(0.0,
1000.0);`, then the loop over the pairs read from the input. -/
def main {D : Type} (A : Arithmetic D) (input : List (D × D)) : List (Iteration D) :=
  let motion := GaussianOf.default A
  let state := GaussianOf.new (A.lit 0) (A.lit 1000)
  mainLoop A motion state input

/-- Exact rational arithmetic, one instance of `Arithmetic`: no rounding.  Its
quotient by zero is the value 0 of the rational field, which is not what a
machine yields; it is evaluated below at non-zero divisors only. -/
def exactRat : Arithmetic ℚ :=
  { lit := fun q => q,
    add := fun x y => x + y,
    mul := fun x y => x * y,
    div := fun x y => x / y }

/-- The exact belief read as a belief over the scalars `ℚ`. -/
def Gaussian.toOf (g : Gaussian) : GaussianOf ℚ :=
  { mean_ := g.mean_, var_ := g.var_ }


/-- Rounding toward zero to an integer: the quotient `std::fmod` uses. -/
def trunc (q : ℚ) : ℤ := if 0 ≤ q then ⌊q⌋ else ⌈q⌉

/-- Library function `std::fmod(x, y)`: the value `x - n * y`, where `n` is
`x / y` with its fractional part truncated.  The source calls it with the
divisor `2 * pi` only; a zero divisor, a NaN in the library, is not meant. -/
def fmod (x y : ℚ) : ℚ := x - (trunc (x / y) : ℚ) * y

/-- Function `mod2pi(t)`, `angle.hpp` lines 9-15. -/
def mod2pi (pi t : ℚ) : ℚ :=
  let full_turn := 2 * pi
  let signed_mod := fmod t full_turn
  if signed_mod < 0 then full_turn + signed_mod else signed_mod

/-- Function `ValueBetweenMinusPiAndPi(t)`, `angle.hpp` lines 17-20. -/
def ValueBetweenMinusPiAndPi (pi t : ℚ) : ℚ :=
  mod2pi pi (t + pi) - pi

/-- The class `Angle`: its private member `value_`. -/
structure Angle where
  value_ : ℚ
deriving DecidableEq, Repr

/-- Constructor `explicit Angle(T alpha)`: stores
`ValueBetweenMinusPiAndPi(alpha)`. -/
def Angle.new (pi alpha : ℚ) : Angle :=
  { value_ := ValueBetweenMinusPiAndPi pi alpha }

/-- Getter `T value() const noexcept { return value_; }`. -/
def Angle.value (a : Angle) : ℚ := a.value_

/-- The value of `std::numbers::pi_v<double>`, the double nearest to the
number pi: `884279719003555 / 2 ^ 48`. -/
def pi_double : ℚ := 884279719003555 / 281474976710656

/-! ## Helper lemmas -/

theorem fdiv_of_ne {x y : ℚ} (h : y ≠ 0) : fdiv x y = Except.ok (x / y) := by
  simp [fdiv, h]

theorem fdiv_zero (x : ℚ) : fdiv x 0 = Except.error Fault.DivisionByZero := by
  simp [fdiv]

theorem inv_sum_ne {a b : ℚ} (ha : a ≠ 0) (hb : b ≠ 0) (hab : a + b ≠ 0) :
    1 / a + 1 / b ≠ 0 := by
  have h : 1 / a + 1 / b = (a + b) / (a * b) := by
    field_simp
    ring
  rw [h]
  exact div_ne_zero hab (mul_ne_zero ha hb)

/-- Closed form of `UpdateMeasurement` whenever no divisor vanishes. -/
theorem UpdateMeasurement_of_ne (p m : Gaussian)
    (h1 : p.Variance ≠ 0) (h2 : m.Variance ≠ 0) (h12 : p.Variance + m.Variance ≠ 0) :
    UpdateMeasurement p m = Except.ok
      { mean_ := (m.Variance * p.Mean + p.Variance * m.Mean) / (p.Variance + m.Variance),
        var_ := 1 / (1 / p.Variance + 1 / m.Variance) } := by
  have h3 := inv_sum_ne h1 h2 h12
  simp only [UpdateMeasurement, fdiv_of_ne h12, fdiv_of_ne h1, fdiv_of_ne h2]
  show (fdiv 1 (1 / p.Variance + 1 / m.Variance) >>= fun sigma_sq => Gaussian.new _ sigma_sq) = _
  rw [fdiv_of_ne h3]
  rfl

theorem PredictState_eq (b m : Gaussian) :
    PredictState b m = Except.ok
      { mean_ := b.Mean + m.Mean, var_ := b.Variance + m.Variance } := rfl

/-- Closed form of `UpdateMeasurement` on two positive variances. -/
theorem UpdateMeasurement_of_pos (p m : Gaussian)
    (hp : 0 < p.Variance) (hm : 0 < m.Variance) :
    UpdateMeasurement p m = Except.ok
      { mean_ := (m.Variance * p.Mean + p.Variance * m.Mean) / (p.Variance + m.Variance),
        var_ := 1 / (1 / p.Variance + 1 / m.Variance) } :=
  UpdateMeasurement_of_ne p m (ne_of_gt hp) (ne_of_gt hm) (ne_of_gt (add_pos hp hm))

/-! ### The angle utility -/

/-- The value of `mod2pi` lies in `[0, 2 * pi)` and differs from its argument by
a whole number of full turns. -/
theorem mod2pi_spec {pi : ℚ} (hpi : 0 < pi) (t : ℚ) :
    0 ≤ mod2pi pi t ∧ mod2pi pi t < 2 * pi ∧ ∃ k : ℤ, mod2pi pi t = t - k * (2 * pi) := by
  have hy : (0 : ℚ) < 2 * pi := by linarith
  have ht : t / (2 * pi) * (2 * pi) = t := div_mul_cancel₀ t (ne_of_gt hy)
  by_cases hq : 0 ≤ t / (2 * pi)
  · have h1 : ((⌊t / (2 * pi)⌋ : ℤ) : ℚ) * (2 * pi) ≤ t := by
      have := mul_le_mul_of_nonneg_right (Int.floor_le (t / (2 * pi))) (le_of_lt hy)
      rwa [ht] at this
    have h2 : t < (((⌊t / (2 * pi)⌋ : ℤ) : ℚ) + 1) * (2 * pi) := by
      have := mul_lt_mul_of_pos_right (Int.lt_floor_add_one (t / (2 * pi))) hy
      rwa [ht] at this
    have hn : ¬ (t - ((⌊t / (2 * pi)⌋ : ℤ) : ℚ) * (2 * pi) < 0) := by
      intro h
      linarith
    simp only [mod2pi, fmod, trunc, if_pos hq, if_neg hn]
    refine ⟨by linarith, by linarith, ⌊t / (2 * pi)⌋, rfl⟩
  · have h1 : t ≤ ((⌈t / (2 * pi)⌉ : ℤ) : ℚ) * (2 * pi) := by
      have := mul_le_mul_of_nonneg_right (Int.le_ceil (t / (2 * pi))) (le_of_lt hy)
      rwa [ht] at this
    have h2 : ((⌈t / (2 * pi)⌉ : ℤ) : ℚ) * (2 * pi) < t + 2 * pi := by
      have := mul_lt_mul_of_pos_right (Int.ceil_lt_add_one (t / (2 * pi))) hy
      rw [add_mul, ht, one_mul] at this
      exact this
    by_cases hneg : t - ((⌈t / (2 * pi)⌉ : ℤ) : ℚ) * (2 * pi) < 0
    · simp only [mod2pi, fmod, trunc, if_neg hq, if_pos hneg]
      refine ⟨by linarith, by linarith, ⌈t / (2 * pi)⌉ - 1, ?_⟩
      push_cast
      ring
    · simp only [mod2pi, fmod, trunc, if_neg hq, if_neg hneg]
      refine ⟨by linarith, by linarith, ⌈t / (2 * pi)⌉, rfl⟩

/-- Two numbers of one half-open window of length `p` that differ by a whole
multiple of `p` are equal. -/
theorem eq_of_window {p lo a b : ℚ} (hp : 0 < p)
    (ha : lo ≤ a ∧ a < lo + p) (hb : lo ≤ b ∧ b < lo + p)
    (k : ℤ) (h : a = b - k * p) : a = b := by
  have hk1 : (k : ℚ) < 1 := by
    by_contra hc
    push_neg at hc
    have := mul_le_mul_of_nonneg_right hc (le_of_lt hp)
    linarith [ha.1, hb.2]
  have hk2 : (-1 : ℚ) < k := by
    by_contra hc
    push_neg at hc
    have := mul_le_mul_of_nonneg_right hc (le_of_lt hp)
    linarith [ha.2, hb.1]
  have hk1z : k < 1 := by exact_mod_cast hk1
  have hk2z : -1 < k := by exact_mod_cast hk2
  have hk : k = 0 := by omega
  rw [h, hk]
  simp

/-- The value of `ValueBetweenMinusPiAndPi` lies in `[-pi, pi)` and differs
from its argument by a whole number of full turns. -/
theorem wrap_spec {pi : ℚ} (hpi : 0 < pi) (t : ℚ) :
    -pi ≤ ValueBetweenMinusPiAndPi pi t ∧ ValueBetweenMinusPiAndPi pi t < pi ∧
      ∃ k : ℤ, ValueBetweenMinusPiAndPi pi t = t - k * (2 * pi) := by
  obtain ⟨h0, h1, k, hk⟩ := mod2pi_spec hpi (t + pi)
  refine ⟨?_, ?_, k, ?_⟩
  · simp only [ValueBetweenMinusPiAndPi]
    linarith
  · simp only [ValueBetweenMinusPiAndPi]
    linarith
  · simp only [ValueBetweenMinusPiAndPi]
    rw [hk]
    ring

/-- A number of `[-pi, pi)` that differs from `t` by a whole number of full
turns is the value `ValueBetweenMinusPiAndPi` gives for `t`. -/
theorem wrap_unique {pi : ℚ} (hpi : 0 < pi) (t x : ℚ)
    (hx : -pi ≤ x ∧ x < pi) (k : ℤ) (h : x = t - k * (2 * pi)) :
    ValueBetweenMinusPiAndPi pi t = x := by
  obtain ⟨h0, h1, j, hj⟩ := wrap_spec hpi t
  have hy : (0 : ℚ) < 2 * pi := by linarith
  refine eq_of_window hy ⟨h0, by linarith⟩ ⟨hx.1, by linarith [hx.2]⟩ (j - k) ?_
  rw [hj, h]
  push_cast
  ring

/-- The half turn `pi` itself is stored as `-pi`. -/
theorem wrap_pi {pi : ℚ} (hpi : 0 < pi) : ValueBetweenMinusPiAndPi pi pi = -pi :=
  wrap_unique hpi pi (-pi) ⟨le_refl _, by linarith⟩ 1 (by push_cast; ring)

/-! ### The two embeddings -/

/-- Where no divisor vanishes, the exact embedding of `UpdateMeasurement`
returns the belief that the embedding over an arbitrary arithmetic computes in
exact rational arithmetic. -/
theorem UpdateMeasurement_agrees (p m : Gaussian)
    (h1 : p.Variance ≠ 0) (h2 : m.Variance ≠ 0) (h12 : p.Variance + m.Variance ≠ 0) :
    UpdateMeasurement p m = Except.ok
      { mean_ := (UpdateMeasurementOf exactRat p.toOf m.toOf).Mean,
        var_ := (UpdateMeasurementOf exactRat p.toOf m.toOf).Variance } := by
  rw [UpdateMeasurement_of_ne p m h1 h2 h12]
  rfl

/-- The exact embedding of `PredictState` returns the belief that the embedding
over an arbitrary arithmetic computes in exact rational arithmetic. -/
theorem PredictState_agrees (b m : Gaussian) :
    PredictState b m = Except.ok
      { mean_ := (PredictStateOf exactRat b.toOf m.toOf).Mean,
        var_ := (PredictStateOf exactRat b.toOf m.toOf).Variance } := rfl

/-! ### The loop of `main` -/

/-- The loop runs once per pair read. -/
theorem mainLoop_length {D : Type} (A : Arithmetic D) (motion : GaussianOf D)
    (input : List (D × D)) :
    ∀ state : GaussianOf D, (mainLoop A motion state input).length = input.length := by
  induction input with
  | nil =>
      intro state
      rfl
  | cons m rest ih =>
      intro state
      obtain ⟨mean, var⟩ := m
      simp only [mainLoop, List.length_cons, ih]

/-- The first iteration of the loop starts in the state the loop is entered
with. -/
theorem mainLoop_head {D : Type} (A : Arithmetic D) (motion state : GaussianOf D)
    (input : List (D × D)) :
    ∀ it ∈ (mainLoop A motion state input).head?, it.initial = state := by
  intro it hit
  cases input with
  | nil => simp [mainLoop] at hit
  | cons m rest =>
      obtain ⟨mean, var⟩ := m
      simp only [mainLoop, List.head?_cons, Option.mem_def, Option.some.injEq] at hit
      rw [← hit]

/-- Every iteration of the loop predicts from its updated state with the one
`motion` the loop is entered with. -/
theorem mainLoop_predicted {D : Type} (A : Arithmetic D) (motion : GaussianOf D)
    (input : List (D × D)) :
    ∀ state : GaussianOf D, ∀ it ∈ mainLoop A motion state input,
      it.predicted = PredictStateOf A it.updated motion := by
  induction input with
  | nil =>
      intro state it hit
      simp [mainLoop] at hit
  | cons m rest ih =>
      intro state it hit
      obtain ⟨mean, var⟩ := m
      simp only [mainLoop, List.mem_cons] at hit
      rcases hit with rfl | hmem
      · rfl
      · exact ih _ it hmem

/-! ## Claims -/

/-- C1: for every prior and measurement with strictly positive variance,
`UpdateMeasurement` returns the belief whose mean is
`(measurement.variance * prior.mean + prior.variance * measurement.mean) /
(prior.variance + measurement.variance)` and whose variance is
`1 / (1 / prior.variance + 1 / measurement.variance)`. -/
theorem C1_UpdateMeasurement_formula (prior measurement : Gaussian)
    (hp : 0 < prior.Variance) (hm : 0 < measurement.Variance) :
    ∃ posterior, UpdateMeasurement prior measurement = Except.ok posterior ∧
      posterior.Mean =
        (measurement.Variance * prior.Mean + prior.Variance * measurement.Mean) /
          (prior.Variance + measurement.Variance) ∧
      posterior.Variance = 1 / (1 / prior.Variance + 1 / measurement.Variance) :=
  ⟨_, UpdateMeasurement_of_pos prior measurement hp hm, rfl, rfl⟩

theorem C1_UpdateMeasurement_formula_witness :
    ∃ posterior, UpdateMeasurement ⟨3, 2⟩ ⟨7, 6⟩ = Except.ok posterior ∧
      posterior.Mean = (6 * 3 + 2 * 7) / (2 + 6) ∧
      posterior.Variance = 1 / (1 / 2 + 1 / 6) :=
  C1_UpdateMeasurement_formula ⟨3, 2⟩ ⟨7, 6⟩
    (by norm_num [Gaussian.Variance]) (by norm_num [Gaussian.Variance])

/-- C2: for every belief and motion, `PredictState` returns the belief with
mean `belief.mean + motion.mean` and variance `belief.variance +
motion.variance`; for the motion `Gaussian(0, eps)` the mean is unchanged and
the variance grows by `eps` only. -/
theorem C2_PredictState_additive (belief motion : Gaussian) (eps : ℚ) :
    (∃ predicted, PredictState belief motion = Except.ok predicted ∧
      predicted.Mean = belief.Mean + motion.Mean ∧
      predicted.Variance = belief.Variance + motion.Variance) ∧
    (∃ predicted,
      (Gaussian.new 0 eps >>= fun still => PredictState belief still) = Except.ok predicted ∧
      predicted.Mean = belief.Mean ∧
      predicted.Variance = belief.Variance + eps) := by
  refine ⟨⟨_, PredictState_eq belief motion, rfl, rfl⟩, ⟨_, rfl, ?_, rfl⟩⟩
  show belief.Mean + 0 = belief.Mean
  exact add_zero _

/-- C3 (as stated, refuted): construction from mean 0 and variance -1 does not
fail, although the variance is not positive. -/
theorem C3_construction_counterexample :
    ¬ ((∃ e, Gaussian.new 0 (-1) = Except.error e) ↔ (-1 : ℚ) ≤ 0) := by
  intro h
  obtain ⟨e, he⟩ := h.mpr (by norm_num)
  simp [Gaussian.new] at he

/-- C3 (amended): construction from `(mean, variance)` never fails; for every
mean and every variance, positive or not, it succeeds and the accessors return
exactly the given mean and variance. -/
theorem C3_construction_total (mu sigma_sq : ℚ) :
    ∃ g, Gaussian.new mu sigma_sq = Except.ok g ∧
      g.Mean = mu ∧ g.Variance = sigma_sq :=
  ⟨_, rfl, rfl, rfl⟩

/-- C4 (as stated, refuted): with prior `(0, -1)` and second argument
`(0, 1/2)` the first variance is not positive, yet neither function raises:
`PredictState` returns `(0, -1/2)` and `UpdateMeasurement` returns `(0, 1)`, a
belief of positive variance. -/
theorem C4_invalid_input_counterexample :
    (Gaussian.Variance ⟨0, -1⟩ ≤ 0 ∨ Gaussian.Variance ⟨0, 1 / 2⟩ ≤ 0) ∧
    PredictState ⟨0, -1⟩ ⟨0, 1 / 2⟩ = Except.ok ⟨0, -1 / 2⟩ ∧
    UpdateMeasurement ⟨0, -1⟩ ⟨0, 1 / 2⟩ = Except.ok ⟨0, 1⟩ ∧
    0 < Gaussian.Variance ⟨0, 1⟩ := by
  refine ⟨Or.inl (by norm_num [Gaussian.Variance]), ?_, ?_, by norm_num [Gaussian.Variance]⟩
  · rw [PredictState_eq]
    norm_num [Gaussian.Mean, Gaussian.Variance]
  · rw [UpdateMeasurement_of_ne _ _ (by norm_num [Gaussian.Variance])
      (by norm_num [Gaussian.Variance]) (by norm_num [Gaussian.Variance])]
    norm_num [Gaussian.Mean, Gaussian.Variance]

/-- C4 (amended): neither function checks a variance or raises
`InvalidDistribution`.  `PredictState` returns the sum belief for every pair of
inputs, and `UpdateMeasurement` returns the belief of the fusion formulas
whenever both variances and their sum are non-zero, whatever their sign. -/
theorem C4_no_validation (a b : Gaussian) :
    PredictState a b = Except.ok ⟨a.Mean + b.Mean, a.Variance + b.Variance⟩ ∧
    UpdateMeasurement a b ≠ Except.error Fault.InvalidDistribution ∧
    (a.Variance ≠ 0 → b.Variance ≠ 0 → a.Variance + b.Variance ≠ 0 →
      UpdateMeasurement a b = Except.ok
        ⟨(b.Variance * a.Mean + a.Variance * b.Mean) / (a.Variance + b.Variance),
          1 / (1 / a.Variance + 1 / b.Variance)⟩) := by
  refine ⟨rfl, ?_, UpdateMeasurement_of_ne a b⟩
  by_cases h1 : a.Variance = 0
  · simp [UpdateMeasurement, fdiv, h1]
    split_ifs <;> simp [bind, Except.bind]
  · by_cases h2 : b.Variance = 0
    · simp [UpdateMeasurement, fdiv, h1, h2, bind, Except.bind]
    · by_cases h12 : a.Variance + b.Variance = 0
      · simp [UpdateMeasurement, fdiv, h12, bind, Except.bind]
      · rw [UpdateMeasurement_of_ne a b h1 h2 h12]
        simp

theorem C4_no_validation_witness :
    UpdateMeasurement ⟨2, -1⟩ ⟨4, 3⟩ = Except.ok
      ⟨(3 * 2 + (-1) * 4) / ((-1) + 3), 1 / (1 / (-1) + 1 / 3)⟩ :=
  (C4_no_validation ⟨2, -1⟩ ⟨4, 3⟩).2.2
    (by norm_num [Gaussian.Variance]) (by norm_num [Gaussian.Variance])
    (by norm_num [Gaussian.Variance])

/-- C7: for every two Gaussians `a` and `b`, `UpdateMeasurement(a, b)` and
`UpdateMeasurement(b, a)` are the identical belief, equal in mean and in
variance.  It holds in every arithmetic whose addition is commutative, as the
addition of doubles is: swapping the arguments only swaps the operands of the
three additions of the function. -/
theorem C7_fusion_commutative {D : Type} (A : Arithmetic D)
    (hadd : ∀ x y, A.add x y = A.add y x) (a b : GaussianOf D) :
    UpdateMeasurementOf A a b = UpdateMeasurementOf A b a ∧
    (UpdateMeasurementOf A a b).Mean = (UpdateMeasurementOf A b a).Mean ∧
    (UpdateMeasurementOf A a b).Variance = (UpdateMeasurementOf A b a).Variance := by
  have hnum : A.add (A.mul b.Variance a.Mean) (A.mul a.Variance b.Mean) =
      A.add (A.mul a.Variance b.Mean) (A.mul b.Variance a.Mean) := hadd _ _
  have hden : A.add a.Variance b.Variance = A.add b.Variance a.Variance := hadd _ _
  have hinv : A.add (A.div (A.lit 1) a.Variance) (A.div (A.lit 1) b.Variance) =
      A.add (A.div (A.lit 1) b.Variance) (A.div (A.lit 1) a.Variance) := hadd _ _
  have h : UpdateMeasurementOf A a b = UpdateMeasurementOf A b a := by
    simp only [UpdateMeasurementOf]
    rw [hnum, hden, hinv]
  exact ⟨h, by rw [h], by rw [h]⟩

theorem C7_fusion_commutative_witness :
    UpdateMeasurementOf exactRat ⟨0, 1000⟩ ⟨5, 4⟩ = UpdateMeasurementOf exactRat ⟨5, 4⟩ ⟨0, 1000⟩ ∧
    (UpdateMeasurementOf exactRat ⟨0, 1000⟩ ⟨5, 4⟩).Mean =
      (UpdateMeasurementOf exactRat ⟨5, 4⟩ ⟨0, 1000⟩).Mean ∧
    (UpdateMeasurementOf exactRat ⟨0, 1000⟩ ⟨5, 4⟩).Variance =
      (UpdateMeasurementOf exactRat ⟨5, 4⟩ ⟨0, 1000⟩).Variance :=
  C7_fusion_commutative exactRat (fun x y => add_comm x y) ⟨0, 1000⟩ ⟨5, 4⟩

/-- C10: end-to-end scenario.  With initial belief `(0, 1000)`, measurement
`(5, 4)` and motion `(1, 2)`, `UpdateMeasurement` returns a belief whose mean is
within `1e-5` of `4.9800797` and whose variance is within `1e-5` of
`3.9840637`; `PredictState` applied to that belief returns one whose mean is
within `1e-5` of `5.9800797` and whose variance is within `1e-5` of
`5.9840637`. -/
theorem C10_end_to_end_scenario :
    ∃ updated predicted,
      UpdateMeasurement ⟨0, 1000⟩ ⟨5, 4⟩ = Except.ok updated ∧
      |updated.Mean - 4.9800797| ≤ 0.00001 ∧
      |updated.Variance - 3.9840637| ≤ 0.00001 ∧
      PredictState updated ⟨1, 2⟩ = Except.ok predicted ∧
      |predicted.Mean - 5.9800797| ≤ 0.00001 ∧
      |predicted.Variance - 5.9840637| ≤ 0.00001 := by
  refine ⟨_, _, UpdateMeasurement_of_ne _ _ (by norm_num [Gaussian.Variance])
    (by norm_num [Gaussian.Variance]) (by norm_num [Gaussian.Variance]),
    ?_, ?_, PredictState_eq _ _, ?_, ?_⟩ <;>
  · rw [abs_le]
    constructor <;> norm_num [Gaussian.Mean, Gaussian.Variance]

/-- C11: the default-constructed Gaussian has mean 0 and variance 1. -/
theorem C11_default_Gaussian :
    ∃ g, Gaussian.default = Except.ok g ∧ g.Mean = 0 ∧ g.Variance = 1 :=
  ⟨_, rfl, rfl, rfl⟩

/-- C12 (the code at the failing input): with `pi` the double
`std::numbers::pi_v<double>`, the angle constructed from `pi` stores `-pi`,
which is not strictly greater than `-pi`: the stored value is outside the open
interval `(-pi, pi)`. -/
theorem C12_Angle_of_pi_is_minus_pi :
    (Angle.new pi_double pi_double).value = -pi_double ∧
    ¬ (-pi_double < (Angle.new pi_double pi_double).value ∧
        (Angle.new pi_double pi_double).value < pi_double) := by
  have h : (Angle.new pi_double pi_double).value = -pi_double :=
    wrap_pi (by norm_num [pi_double])
  refine ⟨h, ?_⟩
  rw [h]
  intro hc
  exact lt_irrefl _ hc.1

/-- C18 (as stated, refuted): the motion model of `main` is the default
Gaussian, whose variance is 1 and not 0, and on the single measurement `(5, 4)`
the state after the predict step, `(1250/251, 1251/251)`, differs from the state
after the update step, `(1250/251, 1000/251)`. -/
theorem C18_motion_counterexample :
    GaussianOf.default exactRat = ⟨0, 1⟩ ∧
    GaussianOf.default exactRat ≠ ⟨0, 0⟩ ∧
    main exactRat [(5, 4)] =
      [⟨⟨0, 1000⟩, ⟨1250 / 251, 1000 / 251⟩, ⟨1250 / 251, 1251 / 251⟩⟩] ∧
    (⟨1250 / 251, 1251 / 251⟩ : GaussianOf ℚ) ≠ ⟨1250 / 251, 1000 / 251⟩ := by
  refine ⟨rfl, ?_, ?_, ?_⟩
  · intro h
    have hv := congrArg GaussianOf.var_ h
    simp [GaussianOf.default, exactRat] at hv
  · simp only [main, mainLoop, UpdateMeasurementOf, PredictStateOf, GaussianOf.new,
      GaussianOf.default, GaussianOf.Mean, GaussianOf.Variance, exactRat]
    norm_num
  · intro h
    have hv := congrArg GaussianOf.var_ h
    norm_num at hv

/-- C18 (amended): for every input, the loop of `main` runs once per
measurement read, starts from the belief `(0, 1000)` and predicts, in every
iteration, with the same default-constructed motion `(0, 1)`: the state after
the predict step is `PredictState` of the state after the update step and
`(0, 1)`, so its mean is `updated.mean + 0` and its variance is
`updated.variance + 1`; where adding the literal 0 changes nothing, the mean
after the predict step is the mean after the update step. -/
theorem C18_main_constant_motion {D : Type} (A : Arithmetic D) (input : List (D × D)) :
    (main A input).length = input.length ∧
    (∀ it ∈ (main A input).head?, it.initial = ⟨A.lit 0, A.lit 1000⟩) ∧
    (∀ it ∈ main A input,
      it.predicted = PredictStateOf A it.updated ⟨A.lit 0, A.lit 1⟩ ∧
      it.predicted.Mean = A.add it.updated.Mean (A.lit 0) ∧
      it.predicted.Variance = A.add it.updated.Variance (A.lit 1)) ∧
    ((∀ x, A.add x (A.lit 0) = x) →
      ∀ it ∈ main A input, it.predicted.Mean = it.updated.Mean) := by
  have hpred : ∀ it ∈ main A input,
      it.predicted = PredictStateOf A it.updated ⟨A.lit 0, A.lit 1⟩ :=
    mainLoop_predicted A (GaussianOf.default A) input _
  refine ⟨mainLoop_length A _ input _, mainLoop_head A _ _ input, ?_, ?_⟩
  · intro it hit
    refine ⟨hpred it hit, ?_, ?_⟩
    · rw [hpred it hit]
      rfl
    · rw [hpred it hit]
      rfl
  · intro hzero it hit
    rw [hpred it hit]
    exact hzero _

theorem C18_main_constant_motion_witness :
    (main exactRat [(5, 4), (6, 4)]).length = [((5 : ℚ), (4 : ℚ)), (6, 4)].length ∧
    ∀ it ∈ main exactRat [(5, 4), (6, 4)], it.predicted.Mean = it.updated.Mean :=
  ⟨(C18_main_constant_motion exactRat [(5, 4), (6, 4)]).1,
    (C18_main_constant_motion exactRat [(5, 4), (6, 4)]).2.2.2 (fun x => add_zero x)⟩

/-- C19: `UpdateMeasurement` never divides by zero on valid input.  For every
prior and measurement with strictly positive variance, each of its four
divisors, `var1 + var2`, `var1`, `var2` and `1 / var1 + 1 / var2`, is non-zero,
none of the four guarded divisions faults, and the call returns a belief. -/
theorem C19_no_division_by_zero (prior measurement : Gaussian)
    (hp : 0 < prior.Variance) (hm : 0 < measurement.Variance) :
    prior.Variance + measurement.Variance ≠ 0 ∧
    prior.Variance ≠ 0 ∧
    measurement.Variance ≠ 0 ∧
    1 / prior.Variance + 1 / measurement.Variance ≠ 0 ∧
    (∀ x, fdiv x (prior.Variance + measurement.Variance) ≠ Except.error Fault.DivisionByZero) ∧
    (∀ x, fdiv x prior.Variance ≠ Except.error Fault.DivisionByZero) ∧
    (∀ x, fdiv x measurement.Variance ≠ Except.error Fault.DivisionByZero) ∧
    (∀ x, fdiv x (1 / prior.Variance + 1 / measurement.Variance) ≠
      Except.error Fault.DivisionByZero) ∧
    ∃ posterior, UpdateMeasurement prior measurement = Except.ok posterior := by
  have h1 : prior.Variance ≠ 0 := ne_of_gt hp
  have h2 : measurement.Variance ≠ 0 := ne_of_gt hm
  have h12 : prior.Variance + measurement.Variance ≠ 0 := ne_of_gt (add_pos hp hm)
  have h3 := inv_sum_ne h1 h2 h12
  refine ⟨h12, h1, h2, h3, ?_, ?_, ?_, ?_, _, UpdateMeasurement_of_pos prior measurement hp hm⟩
  · intro x
    rw [fdiv_of_ne h12]
    simp
  · intro x
    rw [fdiv_of_ne h1]
    simp
  · intro x
    rw [fdiv_of_ne h2]
    simp
  · intro x
    rw [fdiv_of_ne h3]
    simp

theorem C19_no_division_by_zero_witness :
    ∃ posterior, UpdateMeasurement ⟨0, 1000⟩ ⟨5, 4⟩ = Except.ok posterior :=
  (C19_no_division_by_zero ⟨0, 1000⟩ ⟨5, 4⟩
    (by norm_num [Gaussian.Variance]) (by norm_num [Gaussian.Variance])).2.2.2.2.2.2.2.2

end KFCpp
